import Mathlib

/-!
Verification of the brace-balance repair scripts of `elericDp`.

The repository consists of small Python maintenance scripts that count the
delimiter characters `{` and `}` in text files and patch unbalanced files.
File contents are modelled as `List Char`; Python's `str.count(c)` is
`List.count c`, `str.rstrip()` is `rstrip` below, string repetition
`s * n` is `pyStrMul`, and per-file exceptions are modelled with `Except`.
-/

namespace ElericDp

/-- Python's default whitespace set used by `str.rstrip()`, restricted to the
ASCII whitespace characters `' '`, `'\t'`, `'\n'`, `'\r'`, `'\x0b'`, `'\x0c'`.
(Python also strips some Unicode space characters; all proofs below use only
that whitespace characters are neither `'{'` nor `'}'`, which holds for the
full Unicode set as well.) -/
def pyIsSpace (c : Char) : Bool :=
  c = ' ' || c = '\t' || c = '\n' || c = '\r' || c = '\x0b' || c = '\x0c'

/-- Python `content.rstrip()`: remove the maximal run of trailing whitespace. -/
def rstrip (s : List Char) : List Char :=
  (s.reverse.dropWhile pyIsSpace).reverse

/-- Python string repetition `s * n` (`n` concatenated copies of `s`). -/
def pyStrMul (s : List Char) : Nat → List Char
  | 0 => []
  | n + 1 => s ++ pyStrMul s n

/-- The count-based repair of `fix_all_ts_files.py` (lines 15–22) and
`fix_braces2.py` (lines 14–21):

    open_braces = content.count('{')
    close_braces = content.count('}')
    if open_braces > close_braces:
        missing = open_braces - close_braces
        content = content.rstrip() + '\n' + ('}\n' * missing)

When opens do not exceed closes the content is left as is (and the scripts
skip the write because `content == original_content`). -/
def fixContent (content : List Char) : List Char :=
  if content.count '{' > content.count '}' then
    rstrip content ++ '\n' :: pyStrMul ['}', '\n'] (content.count '{' - content.count '}')
  else content

/-! ### Basic lemmas about the embedding -/

theorem rstrip_decomp (s : List Char) :
    ∃ w, s = rstrip s ++ w ∧ ∀ c ∈ w, pyIsSpace c = true := by
  refine ⟨(s.reverse.takeWhile pyIsSpace).reverse, ?_, ?_⟩
  · calc s = s.reverse.reverse := (List.reverse_reverse s).symm
    _ = (s.reverse.takeWhile pyIsSpace ++ s.reverse.dropWhile pyIsSpace).reverse := by
        rw [List.takeWhile_append_dropWhile]
    _ = rstrip s ++ (s.reverse.takeWhile pyIsSpace).reverse := by
        rw [List.reverse_append]; rfl
  · intro c hc
    rw [List.mem_reverse] at hc
    exact List.mem_takeWhile_imp hc

theorem count_rstrip (c : Char) (hc : pyIsSpace c = false) (s : List Char) :
    (rstrip s).count c = s.count c := by
  obtain ⟨w, hw, hws⟩ := rstrip_decomp s
  have h2 : (rstrip s ++ w).count c = s.count c := by rw [← hw]
  rw [List.count_append] at h2
  have hzero : w.count c = 0 := by
    rw [List.count_eq_zero]
    intro hmem
    rw [hws c hmem] at hc
    exact Bool.noConfusion hc
  omega

theorem count_pyStrMul (c : Char) (l : List Char) (n : Nat) :
    (pyStrMul l n).count c = n * l.count c := by
  induction n with
  | zero => simp [pyStrMul]
  | succ k ih =>
    rw [pyStrMul, List.count_append, ih]
    ring

theorem pyStrMul_eq_flatten (l : List Char) (n : Nat) :
    pyStrMul l n = (List.replicate n l).flatten := by
  induction n with
  | zero => rfl
  | succ k ih => rw [pyStrMul, List.replicate_succ, List.flatten_cons, ih]

theorem mem_pyStrMul (c : Char) (l : List Char) (n : Nat) (hc : c ∈ pyStrMul l n) :
    c ∈ l := by
  induction n with
  | zero => simp [pyStrMul] at hc
  | succ k ih =>
    rw [pyStrMul] at hc
    rcases List.mem_append.mp hc with h | h
    · exact h
    · exact ih h

theorem fixContent_count_open (s : List Char) :
    (fixContent s).count '{' = s.count '{' := by
  unfold fixContent
  split
  · have h0 : (['}', '\n'] : List Char).count '{' = 0 := by decide
    have h2 : (('\n' : Char) == '{') = false := by decide
    rw [List.count_append, count_rstrip '{' (by decide), List.count_cons, count_pyStrMul,
      h0, h2]
    simp
  · rfl

theorem fixContent_count_close_of_gt (s : List Char) (h : s.count '{' > s.count '}') :
    (fixContent s).count '}' = s.count '{' := by
  unfold fixContent
  rw [if_pos h]
  have h0 : (['}', '\n'] : List Char).count '}' = 1 := by decide
  have h2 : (('\n' : Char) == '}') = false := by decide
  rw [List.count_append, count_rstrip '}' (by decide), List.count_cons, count_pyStrMul,
    h0, h2]
  simp
  omega

theorem fixContent_eq_self_of_le (s : List Char) (h : s.count '{' ≤ s.count '}') :
    fixContent s = s := by
  unfold fixContent
  rw [if_neg (Nat.not_lt.mpr h)]

/-! ### Claims about the count-based repair -/

/-- Claim C1: for every content whose `'{'` count exceeds its `'}'` count, the
repaired content has equally many `'{'` and `'}'` characters. -/
theorem claimC1_counts_balanced (s : List Char) (h : s.count '{' > s.count '}') :
    (fixContent s).count '{' = (fixContent s).count '}' := by
  rw [fixContent_count_open, fixContent_count_close_of_gt s h]

/-- Witness for C1 at the one-character content `"{"`. -/
theorem claimC1_witness :
    (fixContent ['{']).count '{' = (fixContent ['{']).count '}' :=
  claimC1_counts_balanced ['{'] (by decide)

/-- Claim C2: when `'{'` count exceeds `'}'` count, the repaired content is the
input with trailing whitespace trimmed, one line break, then exactly
`missing = count('{') - count('}')` lines each consisting of `'}'` and a line
break; the trimmed part differs from the input only by trailing whitespace. -/
theorem claimC2_repair_shape (s : List Char) (h : s.count '{' > s.count '}') :
    fixContent s =
      rstrip s ++ ['\n'] ++ (List.replicate (s.count '{' - s.count '}') ['}', '\n']).flatten ∧
    ∃ w, (∀ c ∈ w, pyIsSpace c = true) ∧ s = rstrip s ++ w := by
  constructor
  · unfold fixContent
    rw [if_pos h, pyStrMul_eq_flatten]
    simp
  · obtain ⟨w, hw, hws⟩ := rstrip_decomp s
    exact ⟨w, hws, hw⟩

/-- Witness for C2 at the spec's Scenario 1 content, which has one unmatched
opening delimiter. -/
theorem claimC2_witness :
    fixContent "function f() \x7b return \x7b a: 1 ) \x7d".toList =
      rstrip "function f() \x7b return \x7b a: 1 ) \x7d".toList ++ ['\n'] ++
        (List.replicate ("function f() \x7b return \x7b a: 1 ) \x7d".toList.count '{' -
          "function f() \x7b return \x7b a: 1 ) \x7d".toList.count '}') ['}', '\n']).flatten ∧
    ∃ w, (∀ c ∈ w, pyIsSpace c = true) ∧
      "function f() \x7b return \x7b a: 1 ) \x7d".toList =
        rstrip "function f() \x7b return \x7b a: 1 ) \x7d".toList ++ w :=
  claimC2_repair_shape _ (by decide)

/-- Claim C3: when the `'{'` count is at most the `'}'` count, the repair leaves
the content byte-for-byte unchanged (so the scripts skip the rewrite). -/
theorem claimC3_le_unchanged (s : List Char) (h : s.count '{' ≤ s.count '}') :
    fixContent s = s :=
  fixContent_eq_self_of_le s h

/-- Witness for C3 at the spec's Scenario 2 balanced content. -/
theorem claimC3_witness :
    fixContent "\x7b a: \x7b b: 1 \x7d \x7d".toList = "\x7b a: \x7b b: 1 \x7d \x7d".toList :=
  claimC3_le_unchanged _ (by decide)

/-- Claim C4: the count-based repair is idempotent; applying it to its own
output changes nothing. -/
theorem claimC4_idempotent (s : List Char) :
    fixContent (fixContent s) = fixContent s := by
  by_cases h : s.count '{' > s.count '}'
  · apply fixContent_eq_self_of_le
    rw [fixContent_count_open, fixContent_count_close_of_gt s h]
  · rw [fixContent_eq_self_of_le s (Nat.le_of_not_lt h)]
    exact fixContent_eq_self_of_le s (Nat.le_of_not_lt h)

/-- Claim C6 fails as stated: the input `"{ "` is not preserved in order inside
the repaired output, because `rstrip` deletes the trailing space. -/
theorem claimC6_counterexample :
    ¬ List.Sublist ['{', ' '] (fixContent ['{', ' ']) := by decide

/-- Claim C6 as amended: when the repair fires it removes nothing but trailing
whitespace — the trimmed input is an initial segment of the output and the rest
of the output consists only of `'}'` and line breaks. -/
theorem claimC6_amended (s : List Char) (h : s.count '{' > s.count '}') :
    ∃ w t, (∀ c ∈ w, pyIsSpace c = true) ∧ s = rstrip s ++ w ∧
      fixContent s = rstrip s ++ t ∧ ∀ c ∈ t, c = '}' ∨ c = '\n' := by
  obtain ⟨w, hw, hws⟩ := rstrip_decomp s
  refine ⟨w, '\n' :: pyStrMul ['}', '\n'] (s.count '{' - s.count '}'), hws, hw, ?_, ?_⟩
  · unfold fixContent
    rw [if_pos h]
  · intro c hc
    rcases List.mem_cons.mp hc with h1 | h1
    · exact Or.inr h1
    · have := mem_pyStrMul c _ _ h1
      rcases List.mem_cons.mp this with h2 | h2
      · exact Or.inl h2
      · exact Or.inr (by simpa using h2)

/-- Witness for the amended C6 at the content `"{ "`. -/
theorem claimC6_witness :
    ∃ w t, (∀ c ∈ w, pyIsSpace c = true) ∧ ['{', ' '] = rstrip ['{', ' '] ++ w ∧
      fixContent ['{', ' '] = rstrip ['{', ' '] ++ t ∧ ∀ c ∈ t, c = '}' ∨ c = '\n' :=
  claimC6_amended ['{', ' '] (by decide)

/-- Claim C10: the repair never changes the `'{'` count and never decreases the
`'}'` count. -/
theorem claimC10_count_monotone (s : List Char) :
    (fixContent s).count '{' = s.count '{' ∧ s.count '}' ≤ (fixContent s).count '}' := by
  refine ⟨fixContent_count_open s, ?_⟩
  by_cases h : s.count '{' > s.count '}'
  · rw [fixContent_count_close_of_gt s h]
    omega
  · rw [fixContent_eq_self_of_le s (Nat.le_of_not_lt h)]

/-! ### The single-subdirectory variant `fix_braces.py`

`fix_braces.py` lines 13–17:

    if re.search(r'}\s*\n}\s*$', content):
        content = re.sub(r'(}\s*\n)}\s*$', r'\1', content)

The regex matches a suffix of the content of the form `'}'`, whitespace run,
`'\n'`, `'}'`, whitespace run up to the end (`$` can also match just before a
final newline, but `\s*` itself absorbs newlines, so that adds no further
cases). Read from the end of the content: after dropping the trailing
whitespace the last character must be `'}'`; the character immediately before
that `'}'` must be `'\n'`; and dropping the whitespace run before the final
`'}'` (a run that starts with this `'\n'`) must again expose a `'}'`. -/

/-- The test `re.search(r'}\s*\n}\s*$', content)` of `fix_braces.py` line 13,
as characterised above, reading the reversed content. -/
def tailPat (s : List Char) : Bool :=
  let t := s.reverse.dropWhile pyIsSpace
  t.head? == some '}' && t.tail.head? == some '\n' &&
    (t.tail.dropWhile pyIsSpace).head? == some '}'

/-- `fix_braces.py` lines 13–17: when the trailing pattern matches, the
substitution `re.sub(r'(}\s*\n)}\s*$', r'\1', content)` replaces the matched
suffix (final `'}'` plus surrounding whitespace) by capture group 1, keeping
everything up to and including the `'\n'` that precedes the final `'}'` — i.e.
it deletes the trailing whitespace together with the final `'}'`. When the
pattern does not match, the file is left alone. -/
def fixBraces (s : List Char) : List Char :=
  if tailPat s then (s.reverse.dropWhile pyIsSpace).tail.reverse else s

/-- Modelled from the spec: the spec presents the single-subdirectory variant
as "a narrower pre-filter on the same core algorithm" — apply the general
count-based repair, but only to files whose trailing content matches the
suspicious pattern. -/
def fixBracesSpecVariant (s : List Char) : List Char :=
  if tailPat s then fixContent s else s

theorem fixBraces_decomp (s : List Char) (h : tailPat s = true) :
    ∃ w, (∀ c ∈ w, pyIsSpace c = true) ∧ s = fixBraces s ++ '}' :: w := by
  have hsplit := List.takeWhile_append_dropWhile (p := pyIsSpace) (l := s.reverse)
  unfold fixBraces
  rw [if_pos h]
  unfold tailPat at h
  simp only [Bool.and_eq_true, beq_iff_eq] at h
  obtain ⟨⟨h1, h2⟩, h3⟩ := h
  rcases ht : s.reverse.dropWhile pyIsSpace with _ | ⟨c, r⟩
  · rw [ht] at h1
    simp at h1
  · rw [ht] at h1
    have hc : c = '}' := by simpa using h1
    subst hc
    refine ⟨(s.reverse.takeWhile pyIsSpace).reverse, ?_, ?_⟩
    · intro c hcmem
      rw [List.mem_reverse] at hcmem
      exact List.mem_takeWhile_imp hcmem
    · simp only [List.tail_cons]
      calc s = s.reverse.reverse := (List.reverse_reverse s).symm
      _ = (s.reverse.takeWhile pyIsSpace ++ s.reverse.dropWhile pyIsSpace).reverse := by
          rw [hsplit]
      _ = (s.reverse.dropWhile pyIsSpace).reverse ++ (s.reverse.takeWhile pyIsSpace).reverse := by
          rw [List.reverse_append]
      _ = r.reverse ++ '}' :: (s.reverse.takeWhile pyIsSpace).reverse := by
          rw [ht, List.reverse_cons]
          simp

/-- Claim C7 fails as stated: on the content `"{\n}\n}\n"` the source variant
removes a closing delimiter, while the spec-described variant (pattern
pre-filter in front of the same count-based repair) leaves the balanced-or-
overclosed content untouched. -/
theorem claimC7_counterexample :
    fixBraces ['{', '\n', '}', '\n', '}', '\n'] ≠
      fixBracesSpecVariant ['{', '\n', '}', '\n', '}', '\n'] := by decide

/-- Claim C7 as amended: the single-subdirectory variant is a different
transformation from the count-based repair — whenever its trailing pattern
matches, it deletes the final closing delimiter (plus trailing whitespace)
from the file instead of appending anything; it never falls back to the
count-based repair. -/
theorem claimC7_amended (s : List Char) (h : tailPat s = true) :
    ∃ w, (∀ c ∈ w, pyIsSpace c = true) ∧ s = fixBraces s ++ '}' :: w :=
  fixBraces_decomp s h

/-- Witness for the amended C7 at the content `"{\n}\n}\n"`. -/
theorem claimC7_witness :
    ∃ w, (∀ c ∈ w, pyIsSpace c = true) ∧
      ['{', '\n', '}', '\n', '}', '\n'] =
        fixBraces ['{', '\n', '}', '\n', '}', '\n'] ++ '}' :: w :=
  claimC7_amended _ (by decide)

/-- Claim C9: whenever the trailing pattern matches, the variant removes
exactly one closing delimiter (and no opening delimiter), with no regard to
the relation between the two counts. -/
theorem claimC9_removes_one (s : List Char) (h : tailPat s = true) :
    s.count '}' = (fixBraces s).count '}' + 1 ∧
      (fixBraces s).count '{' = s.count '{' := by
  obtain ⟨w, hws, hdec⟩ := fixBraces_decomp s h
  have hwc : ∀ c : Char, pyIsSpace c = false → w.count c = 0 := by
    intro c hc
    rw [List.count_eq_zero]
    intro hmem
    rw [hws c hmem] at hc
    exact Bool.noConfusion hc
  constructor
  · conv_lhs => rw [hdec]
    rw [List.count_append, List.count_cons, hwc '}' (by decide)]
    simp
  · conv_rhs => rw [hdec]
    rw [List.count_append, List.count_cons, hwc '{' (by decide)]
    have : (('}' : Char) == '{') = false := by decide
    rw [this]
    simp

/-- Witness for C9 at the content `"}\n}"`, where the closing count already
exceeds the opening count and the variant still deletes a closing delimiter. -/
theorem claimC9_witness :
    (['}', '\n', '}'] : List Char).count '}' =
        (fixBraces ['}', '\n', '}']).count '}' + 1 ∧
      (fixBraces ['}', '\n', '}']).count '{' = (['}', '\n', '}'] : List Char).count '{' :=
  claimC9_removes_one _ (by decide)

/-! ### Per-file error handling -/

/-- The per-file loop of `fix_all_ts_files.py` (lines 9–30): the whole body —
read, repair, write — is wrapped in `try/except Exception`, so a file whose
I/O raises is logged (`none` here) and the loop continues with the next file.
Each file is given as its read result, `Except.error` standing for a raised
exception. -/
def runFixAll : List (Except Unit (List Char)) → List (Option (List Char))
  | [] => []
  | Except.error _ :: rest => none :: runFixAll rest
  | Except.ok c :: rest => some (fixContent c) :: runFixAll rest

/-- The per-file loop of `fix_braces2.py` (lines 8–26): there is no
`try/except`, so an exception raised while processing one file propagates out
of the loop and aborts the whole run; the files after it are never processed.
(`fix_braces.py` has the same unprotected loop shape.) -/
def runFixBraces2 : List (Except Unit (List Char)) → Except Unit (List (List Char))
  | [] => Except.ok []
  | Except.error e :: _ => Except.error e
  | Except.ok c :: rest => (runFixBraces2 rest).map (fun rs => fixContent c :: rs)

theorem runFixAll_length (fs : List (Except Unit (List Char))) :
    (runFixAll fs).length = fs.length := by
  induction fs with
  | nil => rfl
  | cons hd tl ih =>
    rcases hd with e | c
    · simpa [runFixAll] using ih
    · simpa [runFixAll] using ih

theorem runFixBraces2_ok_iff (fs : List (Except Unit (List Char))) :
    (runFixBraces2 fs).toOption.isSome = true ↔
      ∀ r ∈ fs, r.toOption.isSome = true := by
  induction fs with
  | nil => simp [runFixBraces2, Except.toOption]
  | cons hd tl ih =>
    rcases hd with e | c
    · simp [runFixBraces2, Except.toOption]
    · rw [List.forall_mem_cons]
      rcases hrb : runFixBraces2 tl with e2 | out
      · rw [hrb] at ih
        simp only [runFixBraces2, hrb]
        simp [Except.map, Except.toOption] at ih ⊢
        exact ih
      · rw [hrb] at ih
        simp only [runFixBraces2, hrb]
        simp [Except.map, Except.toOption] at ih ⊢
        exact ih

/-- Claim C5 fails as stated: in `fix_braces2.py` (cited by the claim) the
loop body has no exception handler, so a failure on the first file aborts the
run and the second, repairable file is never processed. -/
theorem claimC5_counterexample :
    runFixBraces2 [Except.error (), Except.ok ['{']] = Except.error () := rfl

/-- Claim C5 as amended: in `fix_all_ts_files.py` every per-file failure is
caught and every file still yields an outcome (the run always processes all
files), while in `fix_braces2.py` (and `fix_braces.py`) the run completes
exactly when no file fails. -/
theorem claimC5_amended (fs : List (Except Unit (List Char))) :
    (runFixAll fs).length = fs.length ∧
      ((runFixBraces2 fs).toOption.isSome = true ↔
        ∀ r ∈ fs, r.toOption.isSome = true) :=
  ⟨runFixAll_length fs, runFixBraces2_ok_iff fs⟩

/-! ### Console report of `fix_all_ts_files.py` -/

/-- The per-file report line of `fix_all_ts_files.py` line 24:
`print(f"Added {missing} closing brace(s) to: {rel_path}")`. -/
def reportLine (missing : Nat) (relPath : List Char) : List Char :=
  "Added ".toList ++ (Nat.repr missing).toList ++
    " closing brace(s) to: ".toList ++ relPath

/-- The final line of `fix_all_ts_files.py` line 32: `print("Done!")`. -/
def doneLine : List Char := "Done!".toList

/-- The console output of one run of `fix_all_ts_files.py` over the given
(relative path, content) pairs: one `reportLine` for every file whose `'{'`
count exceeds its `'}'` count, then `doneLine`. -/
def fixAllOutput (files : List (List Char × List Char)) : List (List Char) :=
  (files.filterMap fun pc =>
    if pc.2.count '{' > pc.2.count '}' then
      some (reportLine (pc.2.count '{' - pc.2.count '}') pc.1)
    else none) ++ [doneLine]

theorem fixAllEntries_length (files : List (List Char × List Char)) :
    (files.filterMap fun pc =>
      if pc.2.count '{' > pc.2.count '}' then
        some (reportLine (pc.2.count '{' - pc.2.count '}') pc.1)
      else none).length =
      files.countP fun pc => decide (pc.2.count '{' > pc.2.count '}') := by
  induction files with
  | nil => rfl
  | cons hd tl ih =>
    by_cases h : hd.2.count '{' > hd.2.count '}'
    · simp [List.filterMap_cons, List.countP_cons, h, ih]
    · simp [List.filterMap_cons, List.countP_cons, h, ih]

/-- Claim C8 fails as stated: a run over three files of which two are
unbalanced ends with the constant line `"Done!"`, not with a summary count
equal to the number of files changed (here 2). -/
theorem claimC8_counterexample :
    (fixAllOutput [(['a'], ['{']), (['b'], ['{']), (['c'], ['{', '}'])]).getLast? =
        some doneLine ∧
      doneLine ≠ ['2'] ∧
      List.countP (fun pc => decide (pc.2.count '{' > pc.2.count '}'))
          [((['a'] : List Char), (['{'] : List Char)), (['b'], ['{']), (['c'], ['{', '}'])] = 2 := by
  decide

/-- Claim C8 as amended: the report prints one line per repaired file — the
number of per-file lines equals the number of files changed, and each of them
is the `reportLine` of an unbalanced input file, carrying the path and the
number of delimiters added — and the run ends with the constant `"Done!"`
line, not a numeric summary (and no before/after counts are printed). -/
theorem claimC8_amended (files : List (List Char × List Char)) :
    (fixAllOutput files).getLast? = some doneLine ∧
    (fixAllOutput files).length =
      (files.countP fun pc => decide (pc.2.count '{' > pc.2.count '}')) + 1 ∧
    ∀ l ∈ (fixAllOutput files).dropLast, ∃ pc ∈ files,
      pc.2.count '{' > pc.2.count '}' ∧
      l = reportLine (pc.2.count '{' - pc.2.count '}') pc.1 := by
  refine ⟨?_, ?_, ?_⟩
  · unfold fixAllOutput
    exact List.getLast?_concat _
  · unfold fixAllOutput
    rw [List.length_append, fixAllEntries_length]
    rfl
  · intro l hl
    unfold fixAllOutput at hl
    rw [List.dropLast_concat] at hl
    obtain ⟨pc, hpc, hfl⟩ := List.mem_filterMap.mp hl
    by_cases h : pc.2.count '{' > pc.2.count '}'
    · rw [if_pos h] at hfl
      exact ⟨pc, hpc, h, (Option.some.inj hfl).symm⟩
    · rw [if_neg h] at hfl
      exact absurd hfl (by simp)

end ElericDp
